import Mathlib

/-!
Verification of the ISP cooling driver
(`src/drivers/thermal/samsung/isp_cooling.c`).

The development shallowly embeds the fps/level translation engine
(`get_property` and its two wrappers `isp_cooling_get_level`,
`isp_cooling_get_fps`), the cooling-state transition
(`isp_apply_cooling` / `isp_set_cur_state`), and the table construction
(`isp_cooling_table_init`).

Modelling conventions:
* The fps table global `isp_fps_table` is passed explicitly as
  `Option (List Nat)`; `none` models a NULL table pointer and the list
  holds the fps values of the valid entries, in table order.  The
  iteration macro `isp_fps_for_each_valid_entry` and the sentinel
  constants live in a header that is not part of this tree; following
  the spec ("ordered sequence of entries terminated by a sentinel,
  invalid entries skipped") the iteration is modelled as walking that
  list of valid entries.
* C `unsigned int` / `unsigned long` values are `Nat`; the casts that
  appear in the source carry an explicit `% 2^32` (or the sign-extending
  `intCastULong` for the `(int)` cast), and `unsigned long` subtraction
  is the wrapping `usub64`.
* The local variable `fps` of `get_property` (initialised to
  `ISP_FPS_ENTRY_INVALID`) is an `Option Nat`, `none` standing for the
  reserved invalid marker; valid entries never carry that marker.
* Fallible functions return `Except IspErr Nat` in place of the
  C convention of a nonzero negative return code.
-/

namespace IspCooling

/-- Reserved invalid fps marker, `~0` as a 32-bit unsigned value
(modelled from the spec: reserved value never carried by a valid entry). -/
def ISP_FPS_ENTRY_INVALID : Nat := 2 ^ 32 - 1

/-- End-of-table sentinel fps value (modelled from the spec: a sentinel
entry with a reserved "end" fps value marks table termination). -/
def ISP_FPS_TABLE_END : Nat := 2 ^ 32 - 2

/-- `THERMAL_CSTATE_INVALID` is `ULONG_MAX`, returned by
`isp_cooling_get_level` on failure. -/
def THERMAL_CSTATE_INVALID : Nat := 2 ^ 64 - 1

/-- `ISP_FPS_INVALID`, returned by `isp_cooling_get_fps` on failure
(modelled from the spec: reserved invalid fps value). -/
def ISP_FPS_INVALID : Nat := 2 ^ 32 - 1

/-- Error codes the driver returns (negated errno values in C). -/
inductive IspErr where
  | EINVAL
  | ENODEV
  | ENOMEM
deriving DecidableEq

/-- The query selector of `get_property`. -/
inductive IspCoolingProperty where
  | GET_LEVEL
  | GET_FPS
  | GET_MAXL
deriving DecidableEq

/-- The C statement `level = (int)input;` where `input` is
`unsigned long` and `level` is `unsigned long`: the value is truncated
to 32 bits and then sign-extended back to 64 bits. -/
def intCastULong (x : Nat) : Nat :=
  let r := x % 2 ^ 32
  if r < 2 ^ 31 then r else 2 ^ 64 - 2 ^ 32 + r

/-- Wrapping `unsigned long` subtraction `a - b`. -/
def usub64 (a b : Nat) : Nat := (a + (2 ^ 64 - b % 2 ^ 64)) % 2 ^ 64

/-- The value stored by `*output = (unsigned int)(descend ? i : (max_level - i));`
in the `GET_LEVEL` branch of `get_property`.  `descend` is an `int` that
is `-1` (here `none`) when unknown, so only `descend == 0` selects the
`max_level - i` arm. -/
def levelOutput (descend : Option Bool) (max_level i : Nat) : Nat :=
  (if descend = some false then usub64 max_level i else i) % 2 ^ 32

/-- First loop of `get_property`: walks the valid entries skipping
consecutive duplicates, counting the distinct entries (`max_level`),
detecting the sort direction (`descend`, set once from the first two
distinct values), and leaving the last distinct value in `fps`.
The state is threaded as `(fps, descend, max_level)` and the result is
`(max_level, descend, fps)` at loop exit. -/
def countScan : Option Nat → Option Bool → Nat → List Nat → Nat × Option Bool × Option Nat
  | fps, descend, cnt, [] => (cnt, descend, fps)
  | fps, descend, cnt, p :: rest =>
    if fps = some p then
      countScan fps descend cnt rest
    else
      countScan (some p)
        (match fps, descend with
         | some f, none => some (decide (f > p))
         | _, _ => descend)
        (cnt + 1) rest

/-- Second loop of `get_property`: walks the valid entries again with the
same duplicate skip, re-using the final `fps` value of the first loop
(the source does not reset `fps`), and answers the `GET_LEVEL` /
`GET_FPS` queries.  Falls through to `-EINVAL` when no entry answers. -/
def scanTranslate (property : IspCoolingProperty) (input level max_level : Nat)
    (descend : Option Bool) : Option Nat → Nat → List Nat → Except IspErr Nat
  | _, _, [] => .error .EINVAL
  | fps, i, p :: rest =>
    if fps = some p then
      scanTranslate property input level max_level descend fps i rest
    else
      if property = .GET_LEVEL ∧ input % 2 ^ 32 = p then
        .ok (levelOutput descend max_level i)
      else if property = .GET_FPS ∧ level = i then
        .ok p
      else
        scanTranslate property input level max_level descend (some p) (i + 1) rest

/-- `get_property` from the source: the common query routine behind
`GET_MAXL`, `GET_LEVEL` and `GET_FPS`.  The `!output` NULL check of the
C is not modelled (the result is returned, not stored); a `none` table
models the NULL `isp_fps_table` pointer. -/
def get_property (table : Option (List Nat)) (input : Nat)
    (property : IspCoolingProperty) : Except IspErr Nat :=
  match table with
  | none => .error .EINVAL
  | some t =>
    match countScan none none 0 t with
    | (max_level, descend, fps) =>
      if max_level = 0 then .error .EINVAL
      else
        let max_level := max_level - 1
        if property = .GET_MAXL then .ok (max_level % 2 ^ 32)
        else scanTranslate property input (intCastULong input) max_level descend fps 0 t

/-- `isp_cooling_get_level`: translate an fps value to a cooling level,
`THERMAL_CSTATE_INVALID` on failure. -/
def isp_cooling_get_level (table : Option (List Nat)) (isp fps : Nat) : Nat :=
  match get_property table fps .GET_LEVEL with
  | .error _ => THERMAL_CSTATE_INVALID
  | .ok val => val

/-- `isp_cooling_get_fps`: translate a cooling level to an fps value,
`ISP_FPS_INVALID` on failure. -/
def isp_cooling_get_fps (table : Option (List Nat)) (isp level : Nat) : Nat :=
  match get_property table level .GET_FPS with
  | .error _ => ISP_FPS_INVALID
  | .ok val => val

/-- Valid table entries are genuine fps values: strictly below the two
reserved 32-bit markers. -/
def EntriesValid (t : List Nat) : Prop := ∀ p ∈ t, p < ISP_FPS_TABLE_END

instance (t : List Nat) : Decidable (EntriesValid t) :=
  inferInstanceAs (Decidable (∀ p ∈ t, p < ISP_FPS_TABLE_END))

/-- Consecutive-duplicate removal, parameterised by the previously seen
value (the dedup step both loops of `get_property` perform). -/
def dedupFrom : Option Nat → List Nat → List Nat
  | _, [] => []
  | fps, p :: rest =>
    if fps = some p then dedupFrom fps rest else p :: dedupFrom (some p) rest

/-- The distinct fps values of a table, in order (consecutive duplicates
removed, first occurrence kept). -/
def distinctFps (t : List Nat) : List Nat := dedupFrom none t

/-- The spec's `maxLevel`: number of distinct fps entries minus one. -/
def maxLevelOf (t : List Nat) : Nat := (distinctFps t).length - 1

/-- The `descend` value the first loop of `get_property` computes, as a
function of the previously seen value and the distinct entries still to
come: set once, from the first pair of distinct values it sees. -/
def descendFrom : Option Nat → List Nat → Option Bool
  | _, [] => none
  | some f, p :: _ => some (decide (f > p))
  | none, p :: rest => descendFrom (some p) rest

/-- The value left in `fps` after a dedup scan: the last element of the
deduplicated list, or the incoming value if nothing was kept. -/
def lastFrom (fps : Option Nat) (l : List Nat) : Option Nat :=
  match l.getLast? with
  | none => fps
  | some x => some x

/-- `descend` after the first loop: it is only (re)computed when still
unknown. -/
def afterDescend (desc : Option Bool) (fps : Option Nat) (l : List Nat) : Option Bool :=
  match desc with
  | some b => some b
  | none => descendFrom fps l

/-- The translation loop specialised to a list that needs no further
duplicate skipping: every element is inspected. -/
def scanDistinct (property : IspCoolingProperty) (input level max_level : Nat)
    (descend : Option Bool) : Nat → List Nat → Except IspErr Nat
  | _, [] => .error .EINVAL
  | i, p :: rest =>
    if property = .GET_LEVEL ∧ input % 2 ^ 32 = p then
      .ok (levelOutput descend max_level i)
    else if property = .GET_FPS ∧ level = i then
      .ok p
    else
      scanDistinct property input level max_level descend (i + 1) rest

theorem dedupFrom_length_le (t : List Nat) :
    ∀ fps, (dedupFrom fps t).length ≤ t.length := by
  induction t with
  | nil => intro fps; simp [dedupFrom]
  | cons p rest ih =>
    intro fps
    by_cases h : fps = some p
    · simp only [dedupFrom, if_pos h, List.length_cons]
      exact le_trans (ih fps) (Nat.le_succ _)
    · simp only [dedupFrom, if_neg h, List.length_cons]
      exact Nat.succ_le_succ (ih (some p))

theorem mem_of_mem_dedupFrom {a : Nat} (t : List Nat) :
    ∀ fps, a ∈ dedupFrom fps t → a ∈ t := by
  induction t with
  | nil => intro fps h; simpa [dedupFrom] using h
  | cons p rest ih =>
    intro fps h
    by_cases hf : fps = some p
    · simp only [dedupFrom, if_pos hf] at h
      exact List.mem_cons_of_mem _ (ih fps h)
    · simp only [dedupFrom, if_neg hf, List.mem_cons] at h
      rcases h with h | h
      · exact h ▸ List.mem_cons_self _ _
      · exact List.mem_cons_of_mem _ (ih (some p) h)

theorem dedupFrom_dedupFrom (t : List Nat) :
    ∀ fps, dedupFrom fps (dedupFrom fps t) = dedupFrom fps t := by
  induction t with
  | nil => intro fps; simp [dedupFrom]
  | cons p rest ih =>
    intro fps
    by_cases h : fps = some p
    · simp only [dedupFrom, if_pos h]
      exact ih fps
    · simp only [dedupFrom, if_neg h]
      rw [ih (some p)]

theorem dedupFrom_distinctFps (t : List Nat) (x : Option Nat) :
    dedupFrom x (distinctFps t) = dedupFrom x t := by
  cases t with
  | nil => simp [distinctFps, dedupFrom]
  | cons p rest =>
    have hd : distinctFps (p :: rest) = p :: dedupFrom (some p) rest := by
      simp [distinctFps, dedupFrom]
    rw [hd]
    by_cases h : x = some p
    · simp only [dedupFrom, if_pos h]
      rw [h, dedupFrom_dedupFrom]
    · simp only [dedupFrom, if_neg h]
      rw [dedupFrom_dedupFrom]

theorem dedupFrom_of_head_ne {x : Nat} (t : List Nat)
    (h : (distinctFps t).head? ≠ some x) : dedupFrom (some x) t = distinctFps t := by
  cases t with
  | nil => simp [distinctFps, dedupFrom]
  | cons p rest =>
    have hd : distinctFps (p :: rest) = p :: dedupFrom (some p) rest := by
      simp [distinctFps, dedupFrom]
    rw [hd] at h ⊢
    have hxp : ¬((some x : Option Nat) = some p) := by
      intro he
      exact h (by simp [List.head?]; exact (Option.some.inj he).symm)
    simp only [dedupFrom, if_neg hxp]

theorem countScan_eq (t : List Nat) :
    ∀ (fps : Option Nat) (desc : Option Bool) (cnt : Nat),
      countScan fps desc cnt t =
        (cnt + (dedupFrom fps t).length,
         afterDescend desc fps (dedupFrom fps t),
         lastFrom fps (dedupFrom fps t)) := by
  induction t with
  | nil =>
    intro fps desc cnt
    cases desc <;> simp [countScan, dedupFrom, afterDescend, descendFrom, lastFrom]
  | cons p rest ih =>
    intro fps desc cnt
    by_cases h : fps = some p
    · simp only [countScan, if_pos h, dedupFrom]
      exact ih fps desc cnt
    · simp only [countScan, if_neg h, dedupFrom]
      rw [ih]
      refine Prod.ext ?_ (Prod.ext ?_ ?_)
      · simp only [List.length_cons]
        omega
      · show afterDescend _ (some p) (dedupFrom (some p) rest) =
          afterDescend desc fps (p :: dedupFrom (some p) rest)
        cases desc with
        | some b => cases fps <;> simp [afterDescend]
        | none =>
          cases fps with
          | none => simp [afterDescend, descendFrom]
          | some f => simp [afterDescend, descendFrom]
      · show lastFrom (some p) (dedupFrom (some p) rest) =
          lastFrom fps (p :: dedupFrom (some p) rest)
        cases hdd : dedupFrom (some p) rest with
        | nil => simp [lastFrom]
        | cons d ds =>
          simp only [lastFrom, List.getLast?_cons_cons]
          cases hgl : (d :: ds).getLast? with
          | none => exact absurd hgl (by simp)
          | some y => rfl

theorem scanTranslate_eq (prop : IspCoolingProperty) (input level ml : Nat)
    (desc : Option Bool) (t : List Nat) :
    ∀ (fps : Option Nat) (i : Nat),
      scanTranslate prop input level ml desc fps i t =
        scanDistinct prop input level ml desc i (dedupFrom fps t) := by
  induction t with
  | nil => intro fps i; simp [scanTranslate, dedupFrom, scanDistinct]
  | cons p rest ih =>
    intro fps i
    by_cases h : fps = some p
    · simp only [scanTranslate, if_pos h, dedupFrom]
      exact ih fps i
    · simp only [scanTranslate, if_neg h, dedupFrom, scanDistinct]
      rw [ih (some p) (i + 1)]

theorem scanDistinct_GET_FPS (input ml : Nat) (desc : Option Bool) (l : List Nat) :
    ∀ (level i : Nat),
      scanDistinct .GET_FPS input level ml desc i l =
        if i ≤ level ∧ level - i < l.length then .ok (l.getD (level - i) 0)
        else .error .EINVAL := by
  induction l with
  | nil => intro level i; simp [scanDistinct]
  | cons p rest ih =>
    intro level i
    by_cases hl : level = i
    · subst hl
      simp [scanDistinct]
    · rw [show scanDistinct .GET_FPS input level ml desc i (p :: rest) =
            scanDistinct .GET_FPS input level ml desc (i + 1) rest from by
          simp [scanDistinct, hl]]
      rw [ih level (i + 1)]
      by_cases hc : i + 1 ≤ level ∧ level - (i + 1) < rest.length
      · rw [if_pos hc, if_pos (show i ≤ level ∧ level - i < (p :: rest).length by
          simp only [List.length_cons]; omega)]
        have he : level - i = (level - (i + 1)) + 1 := by omega
        rw [he]
        simp
      · rw [if_neg hc, if_neg (show ¬(i ≤ level ∧ level - i < (p :: rest).length) by
          simp only [List.length_cons]; omega)]

theorem scanDistinct_GET_LEVEL (input level ml : Nat) (desc : Option Bool) (l : List Nat) :
    ∀ i : Nat,
      scanDistinct .GET_LEVEL input level ml desc i l =
        if input % 2 ^ 32 ∈ l then
          .ok (levelOutput desc ml (i + l.indexOf (input % 2 ^ 32)))
        else .error .EINVAL := by
  induction l with
  | nil => intro i; simp [scanDistinct]
  | cons p rest ih =>
    intro i
    by_cases hm : input % 2 ^ 32 = p
    · have hm' : input % 4294967296 = p := by norm_num at hm; exact hm
      rw [if_pos (by rw [hm]; exact List.mem_cons_self _ _), hm,
        List.indexOf_cons_self]
      simp [scanDistinct, hm']
    · have hm' : ¬input % 4294967296 = p := by norm_num at hm; exact hm
      rw [show scanDistinct .GET_LEVEL input level ml desc i (p :: rest) =
            scanDistinct .GET_LEVEL input level ml desc (i + 1) rest from by
          simp [scanDistinct, hm']]
      rw [ih (i + 1)]
      by_cases hmem : input % 2 ^ 32 ∈ rest
      · rw [if_pos hmem, if_pos (List.mem_cons_of_mem _ hmem)]
        rw [List.indexOf_cons_ne _ (fun he => hm he.symm)]
        have harith : i + Nat.succ (rest.indexOf (input % 2 ^ 32)) =
            (i + 1) + rest.indexOf (input % 2 ^ 32) := by omega
        rw [harith]
      · rw [if_neg hmem, if_neg (fun hc => by
          rcases List.mem_cons.mp hc with h | h
          · exact hm h
          · exact hmem h)]

theorem intCastULong_of_lt {x : Nat} (h : x < 2 ^ 31) : intCastULong x = x := by
  have h32 : x % 2 ^ 32 = x := Nat.mod_eq_of_lt (lt_trans h (by norm_num))
  simp only [intCastULong, h32, if_pos h]

theorem usub64_of_le {ml i : Nat} (hi : i ≤ ml) (hml : ml < 2 ^ 64) :
    usub64 ml i = ml - i := by
  unfold usub64
  have h1 : i % 2 ^ 64 = i := Nat.mod_eq_of_lt (lt_of_le_of_lt hi hml)
  rw [h1]
  have h2 : ml + (2 ^ 64 - i) = 2 ^ 64 + (ml - i) := by omega
  rw [h2, Nat.add_mod_left]
  exact Nat.mod_eq_of_lt (by omega)

theorem lastFrom_none (l : List Nat) : lastFrom none l = l.getLast? := by
  unfold lastFrom
  cases l.getLast? <;> rfl

/-- When the distinct sequence collapses to a single value, re-scanning
the table with that value as the previously-seen `fps` skips everything. -/
theorem dedupFrom_of_distinct_singleton {v : Nat} (t : List Nat)
    (h : distinctFps t = [v]) : dedupFrom (some v) t = [] := by
  cases t with
  | nil => simp [distinctFps, dedupFrom] at h
  | cons p rest =>
    have hd : distinctFps (p :: rest) = p :: dedupFrom (some p) rest := by
      simp [distinctFps, dedupFrom]
    rw [hd] at h
    have hpv : p = v := (List.cons.inj h).1
    have hrest : dedupFrom (some p) rest = [] := (List.cons.inj h).2
    subst hpv
    simp only [dedupFrom, if_pos rfl]
    exact hrest

theorem head?_ne_getLast?_of_nodup {d : List Nat} (hnd : d.Nodup)
    (h2 : 2 ≤ d.length) : d.head? ≠ d.getLast? := by
  intro he
  have h0 : d.head? = some (d.get ⟨0, by omega⟩) := by
    cases d with
    | nil => simp at h2
    | cons a l => rfl
  have h1 : d.getLast? = some (d.get ⟨d.length - 1, by omega⟩) := by
    rw [List.getLast?_eq_getElem? d,
      List.getElem?_eq_getElem (show d.length - 1 < d.length by omega)]
    rfl
  rw [h0, h1] at he
  have hfin := List.nodup_iff_injective_get.mp hnd (Option.some.inj he)
  have h00 : (0 : Nat) = d.length - 1 := congrArg Fin.val hfin
  omega

/-- Unfolding of `get_property` on a present table: the first scan is the
dedup count / direction / last value, the second scan is the translation
scan over the table re-deduplicated starting from that last value. -/
theorem get_property_some (t : List Nat) (input : Nat) (prop : IspCoolingProperty) :
    get_property (some t) input prop =
      if (distinctFps t).length = 0 then Except.error IspErr.EINVAL
      else if prop = .GET_MAXL then Except.ok (((distinctFps t).length - 1) % 2 ^ 32)
      else
        scanDistinct prop input (intCastULong input) ((distinctFps t).length - 1)
          (descendFrom none (distinctFps t)) 0
          (dedupFrom (lastFrom none (distinctFps t)) t) := by
  simp only [get_property]
  rw [countScan_eq, scanTranslate_eq]
  simp only [afterDescend, Nat.zero_add, distinctFps]

theorem get_property_maxl (t : List Nat) (input : Nat) (hne : distinctFps t ≠ []) :
    get_property (some t) input .GET_MAXL =
      .ok (((distinctFps t).length - 1) % 2 ^ 32) := by
  rw [get_property_some,
    if_neg (fun h => hne (List.length_eq_zero.mp h)), if_pos rfl]

theorem get_property_translate (t : List Nat) (input : Nat)
    (prop : IspCoolingProperty) (hprop : prop ≠ .GET_MAXL)
    (hne : distinctFps t ≠ []) :
    get_property (some t) input prop =
      scanDistinct prop input (intCastULong input) ((distinctFps t).length - 1)
        (descendFrom none (distinctFps t)) 0
        (dedupFrom (lastFrom none (distinctFps t)) t) := by
  rw [get_property_some,
    if_neg (fun h => hne (List.length_eq_zero.mp h)), if_neg hprop]

/-- When the first and last distinct values differ, the second scan of
`get_property` walks exactly the distinct sequence: the stale `fps`
carried over from the first scan skips nothing. -/
theorem get_property_translate_clean (t : List Nat) (input : Nat)
    (prop : IspCoolingProperty) (hprop : prop ≠ .GET_MAXL)
    (hhl : (distinctFps t).head? ≠ (distinctFps t).getLast?) :
    get_property (some t) input prop =
      scanDistinct prop input (intCastULong input) (maxLevelOf t)
        (descendFrom none (distinctFps t)) 0 (distinctFps t) := by
  have hne : distinctFps t ≠ [] := by
    intro h
    rw [h] at hhl
    exact hhl rfl
  have hy : (distinctFps t).getLast? =
      some ((distinctFps t).get ⟨(distinctFps t).length - 1, by
        have := List.length_pos.mpr hne
        omega⟩) := by
    rw [List.getLast?_eq_getElem? (distinctFps t),
      List.getElem?_eq_getElem (show (distinctFps t).length - 1 < (distinctFps t).length by
        have := List.length_pos.mpr hne
        omega)]
    rfl
  rw [get_property_translate t input prop hprop hne, lastFrom_none, hy,
    dedupFrom_of_head_ne t (by rw [hy] at hhl; exact hhl)]
  rfl

/-- `struct isp_cooling_device`: the cooling-device record.  The
`cool_dev` back pointer is host-framework glue and is not modelled. -/
structure IspCoolingDevice where
  id : Nat
  isp_state : Nat
  isp_val : Nat
deriving DecidableEq

/-- The event kind broadcast on the notifier chain. -/
inductive IspNotifyEvent where
  | ISP_THROTTLING
deriving DecidableEq

/-- Observable outcome of a state-setting call: the updated device, the
notifications emitted on `isp_notifier` (event kind and the
`unsigned long` payload passed by reference), and the return code. -/
structure ApplyResult where
  dev : IspCoolingDevice
  notified : List (IspNotifyEvent × Nat)
  ret : Except IspErr Unit

/-- `isp_apply_cooling`: if the new cooling state equals the current one,
do nothing and return 0; otherwise store the state (an `unsigned int`
field, hence the `% 2^32` for the `(unsigned int)` cast in the source)
and broadcast one `ISP_THROTTLING` notification carrying the (uncast)
`unsigned long` state.  Always returns 0. -/
def isp_apply_cooling (isp_device : IspCoolingDevice) (cooling_state : Nat) : ApplyResult :=
  if isp_device.isp_state = cooling_state then
    ⟨isp_device, [], .ok ()⟩
  else
    ⟨{ isp_device with isp_state := cooling_state % 2 ^ 32 },
     [(.ISP_THROTTLING, cooling_state)], .ok ()⟩

/-- `isp_set_cur_state`: the cooling-device callback, delegating to
`isp_apply_cooling`. -/
def isp_set_cur_state (isp_device : IspCoolingDevice) (state : Nat) : ApplyResult :=
  isp_apply_cooling isp_device state

/-- One entry of `struct isp_fps_table` as filled by table construction. -/
structure IspFpsTableEntry where
  flags : Nat
  driver_data : Nat
  fps : Nat
deriving DecidableEq

/-- Modelled from the spec: the ECT platform-configuration function (the
`ect_ap_thermal_function` type lives outside this tree); only the
`max_frequency` of each range is consumed by table construction, so the
record carries exactly that list, in range order. -/
structure EctApThermalFunction where
  range_max_frequency : List Nat
deriving DecidableEq

/-- The construction loop of `isp_cooling_table_init`: one entry per run
of consecutive equal `max_frequency` values, first occurrence kept, with
`driver_data` the running entry count.  `last_fps` is an `int` initially
`-1`; it participates in an `int` vs `unsigned int` comparison, where
`-1` converts to `2^32 - 1`, which is how it is threaded here. -/
def tableInitLoop : Nat → Nat → List Nat → List IspFpsTableEntry
  | _, _, [] => []
  | last_fps, count, freq :: rest =>
    if last_fps = freq then tableInitLoop last_fps count rest
    else ⟨0, count, freq⟩ :: tableInitLoop freq (count + 1) rest

/-- `isp_cooling_table_init` (the `CONFIG_ECT` build): `-ENODEV` when the
thermal block or the "ISP" function is absent; otherwise the table is
built and 0 returned.  `allocOk` models whether the `kzalloc` of the
table succeeds — the source never tests the allocation result (it writes
through the pointer unconditionally), so the parameter does not influence
the outcome; that untested allocation is the subject of C9. -/
def isp_cooling_table_init (thermal_block : Option Unit)
    (func : Option EctApThermalFunction) (allocOk : Bool) :
    Except IspErr (List IspFpsTableEntry) :=
  match thermal_block with
  | none => .error .ENODEV
  | some _ =>
    match func with
    | none => .error .ENODEV
    | some f =>
      .ok (tableInitLoop (2 ^ 32 - 1) 0 f.range_max_frequency ++
        [⟨0, 0, ISP_FPS_TABLE_END⟩])

/-- The table the spec describes: the distinct (consecutive-dedup'd)
frequencies paired with sequential indices, terminator appended. -/
def specTable (rs : List Nat) : List IspFpsTableEntry :=
  List.zipWith (fun f c => ⟨0, c, f⟩) (distinctFps rs)
    (List.range (distinctFps rs).length) ++ [⟨0, 0, ISP_FPS_TABLE_END⟩]

theorem tableInitLoop_eq (rs : List Nat) :
    ∀ (count : Nat) (olast : Option Nat) (last : Nat),
      (∀ r ∈ rs, r < 2 ^ 32 - 1) →
      (olast = some last ∨ (olast = none ∧ last = 2 ^ 32 - 1)) →
      tableInitLoop last count rs =
        List.zipWith (fun f c => (⟨0, c, f⟩ : IspFpsTableEntry))
          (dedupFrom olast rs) (List.range' count (dedupFrom olast rs).length) := by
  induction rs with
  | nil => intros; simp [tableInitLoop, dedupFrom]
  | cons r rest ih =>
    intro count olast last hv hol
    have hvrest : ∀ x ∈ rest, x < 2 ^ 32 - 1 :=
      fun x hx => hv x (List.mem_cons_of_mem _ hx)
    by_cases h : last = r
    · have holr : olast = some r := by
        rcases hol with h1 | ⟨h1, h2⟩
        · rw [h1, h]
        · exfalso
          have := hv r (List.mem_cons_self _ _)
          omega
      simp only [tableInitLoop, if_pos h, dedupFrom, if_pos holr]
      exact ih count olast last hvrest (Or.inl (by rw [holr, h]))
    · have holne : ¬(olast = some r) := by
        rcases hol with h1 | ⟨h1, h2⟩
        · rw [h1]
          intro he
          exact h (Option.some.inj he)
        · rw [h1]
          intro he
          cases he
      simp only [tableInitLoop, if_neg h, dedupFrom, if_neg holne,
        List.length_cons]
      rw [ih (count + 1) (some r) r hvrest (Or.inl rfl)]
      rfl

/-- C6: with the table pointer NULL or the table holding zero valid
entries, every query of `get_property` — `GET_MAXL`, `GET_LEVEL` and
`GET_FPS` alike — fails with `-EINVAL`, for every input. -/
theorem C6_empty_table_all_queries_fail (input : Nat) (prop : IspCoolingProperty) :
    get_property none input prop = .error .EINVAL ∧
    get_property (some []) input prop = .error .EINVAL :=
  ⟨rfl, rfl⟩

/-- C4: on the descending table `[30, 15, 7]` the max level is 2,
`fpsToLevel` maps 30 to 0 and 7 to 2, and `levelToFps` maps 0 to 30 and
2 to 7. -/
theorem C4_concrete_scenario :
    get_property (some [30, 15, 7]) 0 .GET_MAXL = .ok 2 ∧
    isp_cooling_get_level (some [30, 15, 7]) 0 30 = 0 ∧
    isp_cooling_get_level (some [30, 15, 7]) 0 7 = 2 ∧
    isp_cooling_get_fps (some [30, 15, 7]) 0 0 = 30 ∧
    isp_cooling_get_fps (some [30, 15, 7]) 0 2 = 7 :=
  ⟨rfl, rfl, rfl, rfl, rfl⟩

/-- C2 counterexample: the claim says a differing `newLevel` is stored
as the new `currentLevel` for every `newLevel`, but the store casts to
`unsigned int`: with `currentLevel = 0` and `newLevel = 2^32` the field
is left at `0`, not `2^32` (while a notification is still emitted). -/
theorem C2_counterexample :
    (0 : Nat) ≠ 2 ^ 32 ∧
    (isp_set_cur_state ⟨0, 0, 0⟩ (2 ^ 32)).dev.isp_state ≠ 2 ^ 32 ∧
    (isp_set_cur_state ⟨0, 0, 0⟩ (2 ^ 32)).notified =
      [(.ISP_THROTTLING, 2 ^ 32)] := by
  refine ⟨by norm_num, ?_, rfl⟩
  show (0 : Nat) ≠ 2 ^ 32
  norm_num

/-- C2 (amended): `setLevel` with `newLevel` equal to the current level
leaves the device unchanged, succeeds and emits nothing; with a
differing `newLevel` it stores `newLevel % 2^32` (equal to `newLevel`
whenever `newLevel < 2^32`), emits exactly one `ISP_THROTTLING`
notification carrying `newLevel`, and succeeds; it succeeds for every
`newLevel`, with no bounds check against the table's max level. -/
theorem C2_setLevel_idempotent_notify (dev : IspCoolingDevice) (newLevel : Nat) :
    (dev.isp_state = newLevel →
      isp_set_cur_state dev newLevel = ⟨dev, [], .ok ()⟩) ∧
    (dev.isp_state ≠ newLevel →
      isp_set_cur_state dev newLevel =
        ⟨{ dev with isp_state := newLevel % 2 ^ 32 },
         [(.ISP_THROTTLING, newLevel)], .ok ()⟩) ∧
    (dev.isp_state ≠ newLevel → newLevel < 2 ^ 32 →
      (isp_set_cur_state dev newLevel).dev.isp_state = newLevel) ∧
    (isp_set_cur_state dev newLevel).ret = .ok () := by
  refine ⟨?_, ?_, ?_, ?_⟩
  · intro h
    simp [isp_set_cur_state, isp_apply_cooling, h]
  · intro h
    simp [isp_set_cur_state, isp_apply_cooling, h]
  · intro h hlt
    have hlt' : newLevel < 4294967296 := by omega
    simp [isp_set_cur_state, isp_apply_cooling, h, Nat.mod_eq_of_lt hlt']
  · by_cases h : dev.isp_state = newLevel <;>
      simp [isp_set_cur_state, isp_apply_cooling, h]

/-- Witness for C2 at device state 0 and new level 3. -/
theorem C2_setLevel_witness :
    isp_set_cur_state ⟨1, 0, 0⟩ 3 =
      ⟨⟨1, 3, 0⟩, [(.ISP_THROTTLING, 3)], .ok ()⟩ :=
  (C2_setLevel_idempotent_notify ⟨1, 0, 0⟩ 3).2.1 (by decide)

/-- C9 (code bug): `isp_cooling_table_init` never checks the result of
the table `kzalloc`.  A failed allocation does not produce an error
return (the C would instead write through the NULL pointer): with the
thermal block and "ISP" function present, the outcome with a failed
allocation is identical to the outcome with a successful one — `.ok`,
never `-ENOMEM`. -/
theorem C9_alloc_failure_not_propagated :
    isp_cooling_table_init (some ()) (some ⟨[30]⟩) false =
      .ok [⟨0, 0, 30⟩, ⟨0, 0, ISP_FPS_TABLE_END⟩] ∧
    isp_cooling_table_init (some ()) (some ⟨[30]⟩) false =
      isp_cooling_table_init (some ()) (some ⟨[30]⟩) true :=
  ⟨rfl, rfl⟩

/-- C10: on a table whose entries collapse to a single distinct fps
value `v`, `GET_MAXL` succeeds with 0, yet `fpsToLevel v` and
`levelToFps 0` both fail with `-EINVAL`: the duplicate-tracking `fps`
variable still holds `v` from the counting scan when the translation
scan starts, so every entry is skipped as a duplicate. -/
theorem C10_single_distinct_value (t : List Nat) (v : Nat)
    (hd : distinctFps t = [v]) :
    get_property (some t) 0 .GET_MAXL = .ok 0 ∧
    get_property (some t) v .GET_LEVEL = .error .EINVAL ∧
    get_property (some t) 0 .GET_FPS = .error .EINVAL := by
  have hne : distinctFps t ≠ [] := by
    rw [hd]
    simp
  refine ⟨?_, ?_, ?_⟩
  · rw [get_property_maxl t 0 hne, hd]
    rfl
  · rw [get_property_translate t v .GET_LEVEL (by decide) hne, hd,
      show lastFrom none [v] = some v from rfl,
      dedupFrom_of_distinct_singleton t hd]
    rfl
  · rw [get_property_translate t 0 .GET_FPS (by decide) hne, hd,
      show lastFrom none [v] = some v from rfl,
      dedupFrom_of_distinct_singleton t hd]
    rfl

/-- Witness for C10 on the table `[30, 30]` (single distinct value 30). -/
theorem C10_single_distinct_value_witness :
    get_property (some [30, 30]) 0 .GET_MAXL = .ok 0 ∧
    get_property (some [30, 30]) 30 .GET_LEVEL = .error .EINVAL ∧
    get_property (some [30, 30]) 0 .GET_FPS = .error .EINVAL :=
  C10_single_distinct_value [30, 30] 30 rfl

theorem countScan_descend (t : List Nat) :
    (countScan none none 0 t).2.1 = descendFrom none (distinctFps t) := by
  rw [countScan_eq]
  rfl

theorem intCastULong_of_ge {x : Nat} (h1 : 2 ^ 31 ≤ x) (h2 : x < 2 ^ 32) :
    intCastULong x = 2 ^ 64 - 2 ^ 32 + x := by
  have h32 : x % 2 ^ 32 = x := Nat.mod_eq_of_lt h2
  simp only [intCastULong, h32]
  rw [if_neg (by omega)]

/-- C7: every query of `get_property` gives the same answer on a table
and on that table with consecutive duplicate entries removed. -/
theorem C7_queries_invariant_under_dedup (t : List Nat) (input : Nat)
    (prop : IspCoolingProperty) :
    get_property (some t) input prop =
      get_property (some (distinctFps t)) input prop := by
  rw [get_property_some, get_property_some,
    show distinctFps (distinctFps t) = distinctFps t from dedupFrom_distinctFps t none,
    dedupFrom_distinctFps t (lastFrom none (distinctFps t))]

/-- C5 counterexample: on the single-entry table `[30]` (`maxLevel = 0`)
the claim predicts `levelToFps 0 = 30`, but the query fails with
`-EINVAL` (see C10); and on `[30, 15]` the claim predicts failure for
the out-of-range level `2^32`, but the `(int)` cast aliases it to level
0 and the query succeeds with 30. -/
theorem C5_counterexample :
    get_property (some [30]) 0 .GET_FPS = .error .EINVAL ∧
    get_property (some [30, 15]) (2 ^ 32) .GET_FPS = .ok 30 :=
  ⟨rfl, rfl⟩

/-- C5 (amended): `levelToFps` scans the distinct entries in table order
and returns the fps at position `level`, provided the first distinct fps
differs from the last one (a table with a single distinct value always
fails, see C10) and `level ≤ maxLevel`; it fails with `-EINVAL` whenever
`maxLevel < level < 2^32` (levels at or above `2^32` pass through an
`(int)` cast and can alias in-range positions) and whenever the table is
empty.  Table sizes are bounded by `2^31` as the scan counter is an
`int`. -/
theorem C5_levelToFps_at_position (t : List Nat) (hv : EntriesValid t)
    (hlen : t.length < 2 ^ 31) :
    ((distinctFps t).head? ≠ (distinctFps t).getLast? →
      ∀ level, level ≤ maxLevelOf t →
        get_property (some t) level .GET_FPS =
          .ok ((distinctFps t).getD level 0)) ∧
    (∀ level, maxLevelOf t < level → level < 2 ^ 32 →
      get_property (some t) level .GET_FPS = .error .EINVAL) ∧
    (t = [] → ∀ level, get_property (some t) level .GET_FPS = .error .EINVAL) := by
  have hdl : (distinctFps t).length ≤ t.length := dedupFrom_length_le t none
  refine ⟨?_, ?_, ?_⟩
  · intro hhl level hlev
    have hne : distinctFps t ≠ [] := fun h => by
      rw [h] at hhl
      exact hhl rfl
    have hpos : 0 < (distinctFps t).length := List.length_pos.mpr hne
    have hlev' : level < (distinctFps t).length := by
      unfold maxLevelOf at hlev
      omega
    have hlsmall : level < 2 ^ 31 := by omega
    rw [get_property_translate_clean t level .GET_FPS (by decide) hhl,
      intCastULong_of_lt hlsmall, scanDistinct_GET_FPS,
      if_pos (show 0 ≤ level ∧ level - 0 < (distinctFps t).length by omega),
      Nat.sub_zero]
  · intro level hgt hlt32
    by_cases hne : distinctFps t = []
    · rw [get_property_some, if_pos (by rw [hne]; rfl)]
    · rw [get_property_translate t level .GET_FPS (by decide) hne,
        scanDistinct_GET_FPS]
      have hl'le : (dedupFrom (lastFrom none (distinctFps t)) t).length ≤
          (distinctFps t).length := by
        rw [← dedupFrom_distinctFps t (lastFrom none (distinctFps t))]
        exact dedupFrom_length_le (distinctFps t) _
      have hdpos : 0 < (distinctFps t).length := List.length_pos.mpr hne
      have hbig : (dedupFrom (lastFrom none (distinctFps t)) t).length ≤
          intCastULong level := by
        unfold maxLevelOf at hgt
        by_cases hcase : level < 2 ^ 31
        · rw [intCastULong_of_lt hcase]
          omega
        · rw [intCastULong_of_ge (by omega) hlt32]
          omega
      rw [if_neg (by omega)]
  · intro ht level
    rw [ht]
    rfl

/-- Witness for C5 on `[30, 15, 7]`: level 1 yields 15; level 5 fails. -/
theorem C5_levelToFps_at_position_witness :
    get_property (some [30, 15, 7]) 1 .GET_FPS = .ok 15 ∧
    get_property (some [30, 15, 7]) 5 .GET_FPS = .error .EINVAL := by
  have h := C5_levelToFps_at_position [30, 15, 7] (by decide) (by decide)
  exact ⟨h.1 (by decide) 1 (by decide), h.2.1 5 (by decide) (by decide)⟩

/-- C1 counterexample: on the ascending table `[10, 20, 30]`
(`maxLevel = 2`), `levelToFps 0 = 10` but `fpsToLevel 10 = 2`, so the
round trip at level 0 returns 2, not 0. -/
theorem C1_counterexample_ascending :
    isp_cooling_get_fps (some [10, 20, 30]) 0 0 = 10 ∧
    isp_cooling_get_level (some [10, 20, 30]) 0 10 = 2 ∧
    (2 : Nat) ≠ 0 :=
  ⟨rfl, rfl, by decide⟩

/-- C1 (amended): for a table whose distinct fps values are strictly
descending with at least two of them (and fewer than `2^31` entries,
the scan counters being C `int`s), translating any level
`L ≤ maxLevel` to an fps value and back yields `L` again.  For
ascending tables the round trip returns `maxLevel - L` instead, and a
single-distinct-value table fails both translations (C10). -/
theorem C1_round_trip_descending (t : List Nat) (hv : EntriesValid t)
    (hlen : t.length < 2 ^ 31)
    (hchain : List.Chain' (· > ·) (distinctFps t))
    (h2 : 2 ≤ (distinctFps t).length)
    (L : Nat) (hL : L ≤ maxLevelOf t) :
    isp_cooling_get_level (some t) 0 (isp_cooling_get_fps (some t) 0 L) = L := by
  have hpw : (distinctFps t).Pairwise (· > ·) := List.chain'_iff_pairwise.mp hchain
  have hnd : (distinctFps t).Nodup := hpw.imp fun hab => ne_of_gt hab
  have hhl := head?_ne_getLast?_of_nodup hnd h2
  have hdl : (distinctFps t).length ≤ t.length := dedupFrom_length_le t none
  have hL' : L < (distinctFps t).length := by
    unfold maxLevelOf at hL
    omega
  have hLsmall : L < 2 ^ 31 := by omega
  have hfps := get_property_translate_clean t L .GET_FPS (by decide) hhl
  rw [intCastULong_of_lt hLsmall, scanDistinct_GET_FPS,
    if_pos (show 0 ≤ L ∧ L - 0 < (distinctFps t).length by omega), Nat.sub_zero,
    List.getD_eq_getElem _ _ hL'] at hfps
  have hw1 : isp_cooling_get_fps (some t) 0 L = (distinctFps t)[L] := by
    unfold isp_cooling_get_fps
    rw [hfps]
  rw [hw1]
  have hmem : (distinctFps t)[L] ∈ distinctFps t := List.getElem_mem hL'
  have hmemt : (distinctFps t)[L] ∈ t := mem_of_mem_dedupFrom t none hmem
  have hval : (distinctFps t)[L] < 2 ^ 32 := by
    have hv' : ∀ p ∈ t, p < ISP_FPS_TABLE_END := hv
    have h1 := hv' _ hmemt
    have h2' : ISP_FPS_TABLE_END = 2 ^ 32 - 2 := rfl
    omega
  have hmod : (distinctFps t)[L] % 2 ^ 32 = (distinctFps t)[L] :=
    Nat.mod_eq_of_lt hval
  have hlev := get_property_translate_clean t ((distinctFps t)[L]) .GET_LEVEL
    (by decide) hhl
  rw [scanDistinct_GET_LEVEL, hmod, if_pos hmem,
    List.indexOf_getElem hnd L hL', Nat.zero_add] at hlev
  obtain ⟨d0, tl, hd0⟩ := List.exists_cons_of_ne_nil
    (show distinctFps t ≠ [] from fun h => by rw [h] at h2; simp at h2)
  obtain ⟨d1, ds, hd1⟩ := List.exists_cons_of_ne_nil
    (show tl ≠ [] from fun h => by rw [hd0, h] at h2; simp at h2)
  have hdds : distinctFps t = d0 :: d1 :: ds := by rw [hd0, hd1]
  have hgt : d0 > d1 := by
    have hc := hchain
    rw [hdds] at hc
    exact (List.chain'_cons.mp hc).1
  have hdesc : descendFrom none (distinctFps t) = some true := by
    rw [hdds]
    show some (decide (d0 > d1)) = some true
    simp [hgt]
  rw [hdesc] at hlev
  have hout : levelOutput (some true) (maxLevelOf t) L = L := by
    unfold levelOutput
    rw [if_neg (by simp)]
    exact Nat.mod_eq_of_lt (by omega)
  rw [hout] at hlev
  unfold isp_cooling_get_level
  rw [hlev]

/-- Witness for C1 on the descending table `[30, 15, 7]` at level 1. -/
theorem C1_round_trip_descending_witness :
    isp_cooling_get_level (some [30, 15, 7]) 0
      (isp_cooling_get_fps (some [30, 15, 7]) 0 1) = 1 :=
  C1_round_trip_descending [30, 15, 7] (by decide) (by decide)
    (by show List.Chain' (· > ·) [30, 15, 7]
        norm_num [List.chain'_cons, List.chain'_singleton])
    (by decide) 1 (by decide)

/-- C3: in the `GET_LEVEL` query, (a) once the table has distinct values
`d0, d1, …` the direction flag is `descend = (d0 > d1)`, (b) with fewer
than two distinct values it stays `-1` (unknown, here `none`); (c) on a
monotonic table with at least two distinct values, a requested fps
matching the distinct entry at position `i` yields level `i` when
descending and `maxLevel - i` when ascending; (d) when no entry matches
the requested fps the query fails with `-EINVAL`. -/
theorem C3_fpsToLevel_direction (t : List Nat) (hv : EntriesValid t)
    (hlen : t.length < 2 ^ 31) :
    (∀ d0 d1 rest, distinctFps t = d0 :: d1 :: rest →
      (countScan none none 0 t).2.1 = some (decide (d0 > d1))) ∧
    ((distinctFps t).length < 2 → (countScan none none 0 t).2.1 = none) ∧
    (∀ input,
      (List.Chain' (· > ·) (distinctFps t) ∨ List.Chain' (· < ·) (distinctFps t)) →
      2 ≤ (distinctFps t).length → input ∈ distinctFps t →
      get_property (some t) input .GET_LEVEL =
        .ok (if List.Chain' (· > ·) (distinctFps t)
             then (distinctFps t).indexOf input
             else maxLevelOf t - (distinctFps t).indexOf input)) ∧
    (∀ input, input % 2 ^ 32 ∉ t →
      get_property (some t) input .GET_LEVEL = .error .EINVAL) := by
  have hdl : (distinctFps t).length ≤ t.length := dedupFrom_length_le t none
  refine ⟨?_, ?_, ?_, ?_⟩
  · intro d0 d1 rest hd
    rw [countScan_descend, hd]
    rfl
  · intro hlt
    cases hq : distinctFps t with
    | nil => rw [countScan_descend, hq]; rfl
    | cons a l =>
      cases l with
      | nil => rw [countScan_descend, hq]; rfl
      | cons b m =>
        rw [hq] at hlt
        simp at hlt
        omega
  · intro input hmono h2 hmem
    have hnd : (distinctFps t).Nodup := by
      rcases hmono with hm | hm
      · exact (List.chain'_iff_pairwise.mp hm).imp fun hab => ne_of_gt hab
      · exact (List.chain'_iff_pairwise.mp hm).imp fun hab => ne_of_lt hab
    have hhl := head?_ne_getLast?_of_nodup hnd h2
    have hmemt : input ∈ t := mem_of_mem_dedupFrom t none hmem
    have hval : input < 2 ^ 32 := by
      have hv' : ∀ p ∈ t, p < ISP_FPS_TABLE_END := hv
      have h1 := hv' input hmemt
      have h2' : ISP_FPS_TABLE_END = 2 ^ 32 - 2 := rfl
      omega
    have hmod : input % 2 ^ 32 = input := Nat.mod_eq_of_lt hval
    have hidx : (distinctFps t).indexOf input < (distinctFps t).length :=
      List.indexOf_lt_length.mpr hmem
    rw [get_property_translate_clean t input .GET_LEVEL (by decide) hhl,
      scanDistinct_GET_LEVEL, hmod, if_pos hmem, Nat.zero_add]
    obtain ⟨d0, tl, hd0⟩ := List.exists_cons_of_ne_nil
      (show distinctFps t ≠ [] from fun h => by rw [h] at h2; simp at h2)
    obtain ⟨d1, ds, hd1⟩ := List.exists_cons_of_ne_nil
      (show tl ≠ [] from fun h => by rw [hd0, h] at h2; simp at h2)
    have hdds : distinctFps t = d0 :: d1 :: ds := by rw [hd0, hd1]
    rcases hmono with hm | hm
    · have hgt : d0 > d1 := by
        rw [hdds] at hm
        exact (List.chain'_cons.mp hm).1
      have hdesc : descendFrom none (distinctFps t) = some true := by
        rw [hdds]
        show some (decide (d0 > d1)) = some true
        simp [hgt]
      rw [hdesc, if_pos hm]
      unfold levelOutput
      rw [if_neg (by simp)]
      have hsm : (distinctFps t).indexOf input % 2 ^ 32 =
          (distinctFps t).indexOf input := Nat.mod_eq_of_lt (by omega)
      rw [hsm]
    · have hlt : d0 < d1 := by
        rw [hdds] at hm
        exact (List.chain'_cons.mp hm).1
      have hdesc : descendFrom none (distinctFps t) = some false := by
        rw [hdds]
        show some (decide (d0 > d1)) = some false
        simp only [Option.some.injEq, decide_eq_false_iff_not]
        omega
      have hnotdesc : ¬List.Chain' (· > ·) (distinctFps t) := by
        intro hcon
        rw [hdds] at hcon
        have := (List.chain'_cons.mp hcon).1
        omega
      rw [hdesc, if_neg hnotdesc]
      unfold levelOutput
      rw [if_pos rfl]
      have hile : (distinctFps t).indexOf input ≤ maxLevelOf t := by
        unfold maxLevelOf
        omega
      rw [usub64_of_le hile (by unfold maxLevelOf at hile ⊢; omega)]
      have hsm : (maxLevelOf t - (distinctFps t).indexOf input) % 2 ^ 32 =
          maxLevelOf t - (distinctFps t).indexOf input := by
        unfold maxLevelOf
        exact Nat.mod_eq_of_lt (by omega)
      rw [hsm]
  · intro input hnot
    by_cases hne : distinctFps t = []
    · rw [get_property_some, if_pos (by rw [hne]; rfl)]
    · rw [get_property_translate t input .GET_LEVEL (by decide) hne,
        scanDistinct_GET_LEVEL,
        if_neg (fun hc => hnot (mem_of_mem_dedupFrom t _ hc))]

/-- Witness for C3 on `[30, 15, 7]`: fps 15 maps to level 1 (descending
match at position 1); fps 9 matches nothing and fails. -/
theorem C3_fpsToLevel_direction_witness :
    get_property (some [30, 15, 7]) 15 .GET_LEVEL = .ok 1 ∧
    get_property (some [30, 15, 7]) 9 .GET_LEVEL = .error .EINVAL := by
  have hch : List.Chain' (· > ·) (distinctFps [30, 15, 7]) := by
    show List.Chain' (· > ·) [30, 15, 7]
    norm_num [List.chain'_cons, List.chain'_singleton]
  have h := C3_fpsToLevel_direction [30, 15, 7] (by decide) (by decide)
  refine ⟨?_, h.2.2.2 9 (by decide)⟩
  have h1 := h.2.2.1 15 (Or.inl hch) (by decide) (by decide)
  rw [if_pos hch] at h1
  exact h1

/-- C8: table construction fails with `-ENODEV` when the thermal block
or the "ISP" function is absent; otherwise it emits one entry per run of
consecutive ranges sharing a max-frequency (first occurrence kept, with
a sequential index as `driver_data`) followed by a terminator entry. -/
theorem C8_table_construction (rs : List Nat) (hv : ∀ r ∈ rs, r < 2 ^ 32 - 1)
    (allocOk : Bool) :
    (∀ fn aOk, isp_cooling_table_init none fn aOk = .error .ENODEV) ∧
    (∀ aOk, isp_cooling_table_init (some ()) none aOk = .error .ENODEV) ∧
    isp_cooling_table_init (some ()) (some ⟨rs⟩) allocOk = .ok (specTable rs) := by
  refine ⟨fun fn aOk => rfl, fun aOk => rfl, ?_⟩
  show Except.ok (tableInitLoop (2 ^ 32 - 1) 0 rs ++ [⟨0, 0, ISP_FPS_TABLE_END⟩]) =
    Except.ok (specTable rs)
  rw [tableInitLoop_eq rs 0 none (2 ^ 32 - 1) hv (Or.inr ⟨rfl, rfl⟩)]
  unfold specTable
  rw [List.range_eq_range']
  rfl

/-- Witness for C8 on ranges `[30, 30, 15]`: the duplicate 30 collapses
and the terminator is appended. -/
theorem C8_table_construction_witness :
    isp_cooling_table_init (some ()) (some ⟨[30, 30, 15]⟩) true =
      .ok [⟨0, 0, 30⟩, ⟨0, 1, 15⟩, ⟨0, 0, ISP_FPS_TABLE_END⟩] :=
  (C8_table_construction [30, 30, 15] (by decide) true).2.2

end IspCooling
